import Mathlib

/-!
Verification of the BrowserOS in-memory kernel (`src/kernel/src/lib.rs`).

The Rust source is shallowly embedded: the thread-local mutable `Kernel` is a
Lean structure threaded explicitly through every operation, `HashMap<u32, _>`
tables become functions `Nat → Option _`, the per-directory
`HashMap<String, u32>` child table becomes an association list with
replace-on-insert semantics (matching `HashMap::insert`), strings become
`List Char`, and `Vec<u8>` becomes `List Nat`.  A Rust function returning
`Result<T, String>` becomes `Except (List Char) T`; the one place the Rust
code can panic (the slice `inode.data[start..end]` in `read_file` when
`start > end`) is modelled by an `Option` whose `none` is the panic.
-/

namespace BrowserOS

/-- Characters of a string literal, the working representation of Rust `String`. -/
def chars (s : String) : List Char := s.toList

/-- Association list from names to inode ids, the embedding of the
per-directory `HashMap<String, u32>`. -/
abbrev ChildMap := List (List Char × Nat)

/-- Lookup in a child map: first entry with an equal key. -/
def alookup : ChildMap → List Char → Option Nat
  | [], _ => none
  | (k, v) :: rest, n => if n = k then some v else alookup rest n

/-- Insert into a child map with `HashMap::insert` semantics: replace the
value if the key is present, otherwise add the entry. -/
def ainsert : ChildMap → List Char → Nat → ChildMap
  | [], n, v => [(n, v)]
  | (k, w) :: rest, n, v => if n = k then (n, v) :: rest else (k, w) :: ainsert rest n v

/-- Pointwise update of a function-backed table, the embedding of
`HashMap::insert` / `HashMap::remove` on the `u32`-keyed kernel tables. -/
def fupdate {β : Type} (m : Nat → Option β) (key : Nat) (v : Option β) : Nat → Option β :=
  fun x => if x = key then v else m x

/-- Rust `enum InodeType`. -/
inductive InodeType
  | File
  | Directory
deriving DecidableEq, Repr

/-- Rust `enum ProcessState`. -/
inductive ProcessState
  | Ready
  | Running
  | Waiting
  | Terminated
deriving DecidableEq, Repr

/-- Rust `struct Inode`. -/
structure Inode where
  id : Nat
  inode_type : InodeType
  name : List Char
  data : List Nat
  children : ChildMap
  parent : Option Nat
deriving DecidableEq, Repr

/-- Rust `struct FileDescriptor`. -/
structure FileDescriptor where
  inode_id : Nat
  offset : Nat
  mode : List Char
deriving DecidableEq, Repr

/-- Rust `struct ProcessControlBlock`. -/
structure ProcessControlBlock where
  pid : Nat
  state : ProcessState
  parent_pid : Option Nat
  exit_code : Int
deriving DecidableEq, Repr

/-- Rust `struct Kernel`. -/
structure Kernel where
  booted : Bool
  start_time_ms : Nat
  current_time_ms : Nat
  process_table : Nat → Option ProcessControlBlock
  next_pid : Nat
  current_pid : Nat
  inode_map : Nat → Option Inode
  next_inode_id : Nat
  root_inode_id : Nat
  open_files : Nat → Option FileDescriptor
  next_fd : Nat

/-- `Kernel::new`: fresh kernel with the id-0 root directory and the init
process, `next_inode_id = 1`, `next_fd = 3`. -/
def Kernel.new : Kernel where
  booted := false
  start_time_ms := 0
  current_time_ms := 0
  process_table := fupdate (fun _ => none) 0
    (some { pid := 0, state := .Running, parent_pid := none, exit_code := 0 })
  next_pid := 1
  current_pid := 0
  inode_map := fupdate (fun _ => none) 0
    (some { id := 0, inode_type := .Directory, name := chars "/", data := [],
            children := [], parent := none })
  next_inode_id := 1
  root_inode_id := 0
  open_files := fun _ => none
  next_fd := 3

/-- `Kernel::create_process`. -/
def Kernel.create_process (k : Kernel) (parent_pid : Nat) : Nat × Kernel :=
  let pid := k.next_pid
  (pid, { k with
            next_pid := k.next_pid + 1
            process_table := fupdate k.process_table pid
              (some { pid := pid, state := .Ready, parent_pid := some parent_pid,
                      exit_code := 0 }) })

/-- `Kernel::get_uptime_ms`. -/
def Kernel.get_uptime_ms (k : Kernel) : Nat :=
  if k.booted ∧ k.start_time_ms ≤ k.current_time_ms then
    k.current_time_ms - k.start_time_ms
  else 0

/-- `Kernel::create_inode`.  Note the source order: the fresh inode is
inserted into `inode_map` and the id counter advanced BEFORE the parent is
looked up and validated, so the failure branches leave the orphan insertion
in place. -/
def Kernel.create_inode (k : Kernel) (parent_id : Nat) (name : List Char)
    (ty : InodeType) : Except (List Char) Nat × Kernel :=
  let inode_id := k.next_inode_id
  let k2 : Kernel :=
    { k with
        next_inode_id := k.next_inode_id + 1
        inode_map := fupdate k.inode_map inode_id
          (some { id := inode_id, inode_type := ty, name := name, data := [],
                  children := [], parent := some parent_id }) }
  match k2.inode_map parent_id with
  | some parent =>
      if parent.inode_type = .Directory then
        (.ok inode_id,
         { k2 with
             inode_map := fupdate k2.inode_map parent_id
               (some { parent with children := ainsert parent.children name inode_id }) })
      else
        (.error (chars "Parent is not a directory"), k2)
  | none => (.error (chars "Parent inode not found"), k2)

/-- `str::trim_matches('/')`: drop leading and trailing slashes. -/
def trimSlashes (l : List Char) : List Char :=
  ((l.dropWhile (· = '/')).reverse.dropWhile (· = '/')).reverse

/-- `str::rfind('/')` followed by the two index slices of `fs_create`:
`some (before, after)` splits at the LAST slash, `none` when there is no
slash at all. -/
def rsplitSlash : List Char → Option (List Char × List Char)
  | [] => none
  | c :: rest =>
    match rsplitSlash rest with
    | some (pre, suf) => some (c :: pre, suf)
    | none => if c = '/' then some ([], rest) else none

/-- `str::split(sep)` for a one-character separator: pieces between
occurrences, empty pieces included, `[[]]` on empty input. -/
def splitChar (sep : Char) : List Char → List (List Char)
  | [] => [[]]
  | c :: rest =>
    if c = sep then [] :: splitChar sep rest
    else
      match splitChar sep rest with
      | [] => [[c]]
      | piece :: more => (c :: piece) :: more

/-- The loop body of `Kernel::get_inode`: walk the component list from
`current`, skipping empty components, with the defensive missing-inode
check of the source. -/
def resolveLoop (k : Kernel) : Nat → List (List Char) → Except (List Char) Nat
  | current, [] => .ok current
  | current, c :: rest =>
    if c = [] then resolveLoop k current rest
    else
      match k.inode_map current with
      | some ino =>
          match alookup ino.children c with
          | some next => resolveLoop k next rest
          | none => .error (chars "Path component not found: " ++ c)
      | none => .error (chars "Inode not found during traversal")

/-- `Kernel::get_inode`: path resolution. -/
def Kernel.get_inode (k : Kernel) (path : List Char) : Except (List Char) Nat :=
  let p := trimSlashes path
  if p = [] then .ok k.root_inode_id
  else resolveLoop k k.root_inode_id (splitChar '/' p)

/-- `Kernel::open_file`. -/
def Kernel.open_file (k : Kernel) (inode_id : Nat) (mode : List Char) :
    Except (List Char) Nat × Kernel :=
  match k.inode_map inode_id with
  | none => (.error (chars "Inode not found"), k)
  | some _ =>
      let fd := k.next_fd
      (.ok fd,
       { k with
           next_fd := k.next_fd + 1
           open_files := fupdate k.open_files fd
             (some { inode_id := inode_id, offset := 0, mode := mode }) })

/-- `Kernel::read_file`.  `start + buf_size` is a `usize` addition, 32 bits
wide on the wasm32 target: when the mathematical sum reaches `2 ^ 32` (the
literal 4294967296 below) the program panics — a debug build aborts on the
checked addition, a release build wraps the sum below `start` and the slice
`inode.data[start..end]` then panics — so that case is a `none` result.
The slice also panics, in both builds, when the cursor exceeds the content
length (`start > end`); that is the other `none`. -/
def Kernel.read_file (k : Kernel) (fd : Nat) (buf_size : Nat) :
    Option (Except (List Char) (List Nat) × Kernel) :=
  match k.open_files fd with
  | none => some (.error (chars "File descriptor not found"), k)
  | some d =>
      match k.inode_map d.inode_id with
      | none => some (.error (chars "Inode not found"), k)
      | some ino =>
          let start := d.offset
          if start + buf_size < 4294967296 then
            let e := min (start + buf_size) ino.data.length
            if start ≤ e then
              some (.ok ((ino.data.drop start).take (e - start)),
                { k with
                    open_files := fupdate k.open_files fd (some { d with offset := e }) })
            else none
          else none

/-- `Kernel::write_file`: unconditional append, cursor and mode untouched. -/
def Kernel.write_file (k : Kernel) (fd : Nat) (data : List Nat) :
    Except (List Char) Nat × Kernel :=
  match k.open_files fd with
  | none => (.error (chars "File descriptor not found"), k)
  | some d =>
      match k.inode_map d.inode_id with
      | none => (.error (chars "Inode not found"), k)
      | some ino =>
          (.ok data.length,
           { k with
               inode_map := fupdate k.inode_map d.inode_id
                 (some { ino with data := ino.data ++ data }) })

/-- `Kernel::close_file`: the removal happens unconditionally (removing an
absent key is a no-op on the table), the result depends on whether the
descriptor was present. -/
def Kernel.close_file (k : Kernel) (fd : Nat) : Except (List Char) Unit × Kernel :=
  let old := k.open_files fd
  let k' : Kernel := { k with open_files := fupdate k.open_files fd none }
  match old with
  | some _ => (.ok (), k')
  | none => (.error (chars "File descriptor not found"), k')

/-- `Kernel::list_directory` (child names in the table's entry order; the
Rust `HashMap` iteration order is unspecified, and no claim depends on it). -/
def Kernel.list_directory (k : Kernel) (inode_id : Nat) :
    Except (List Char) (List (List Char)) :=
  match k.inode_map inode_id with
  | none => .error (chars "Inode not found")
  | some ino =>
      if ino.inode_type = .Directory then .ok (ino.children.map (·.1))
      else .error (chars "Not a directory")

/-- One continuation byte of a UTF-8 sequence. -/
def utf8Cont (b : Nat) : Prop := 0x80 ≤ b ∧ b ≤ 0xBF

instance (b : Nat) : Decidable (utf8Cont b) := by unfold utf8Cont; infer_instance

/-- `String::from_utf8`: strict UTF-8 decoding (rejecting overlong forms,
surrogates and out-of-range code points, as the Rust validator does). -/
def utf8Decode : List Nat → Option (List Char)
  | [] => some []
  | b1 :: t1 =>
    if b1 < 0x80 then
      (utf8Decode t1).map (fun cs => Char.ofNat b1 :: cs)
    else
      match t1 with
      | [] => none
      | b2 :: t2 =>
        if 0xC2 ≤ b1 ∧ b1 ≤ 0xDF then
          if utf8Cont b2 then
            (utf8Decode t2).map (fun cs =>
              Char.ofNat ((b1 - 0xC0) * 0x40 + (b2 - 0x80)) :: cs)
          else none
        else
          match t2 with
          | [] => none
          | b3 :: t3 =>
            if 0xE0 ≤ b1 ∧ b1 ≤ 0xEF then
              if (if b1 = 0xE0 then 0xA0 ≤ b2 ∧ b2 ≤ 0xBF
                  else if b1 = 0xED then 0x80 ≤ b2 ∧ b2 ≤ 0x9F
                  else utf8Cont b2) ∧ utf8Cont b3 then
                (utf8Decode t3).map (fun cs =>
                  Char.ofNat ((b1 - 0xE0) * 0x1000 + (b2 - 0x80) * 0x40 + (b3 - 0x80)) :: cs)
              else none
            else
              match t3 with
              | [] => none
              | b4 :: t4 =>
                if 0xF0 ≤ b1 ∧ b1 ≤ 0xF4 then
                  if (if b1 = 0xF0 then 0x90 ≤ b2 ∧ b2 ≤ 0xBF
                      else if b1 = 0xF4 then 0x80 ≤ b2 ∧ b2 ≤ 0x8F
                      else utf8Cont b2) ∧ utf8Cont b3 ∧ utf8Cont b4 then
                    (utf8Decode t4).map (fun cs =>
                      Char.ofNat ((b1 - 0xF0) * 0x40000 + (b2 - 0x80) * 0x1000 +
                        (b3 - 0x80) * 0x40 + (b4 - 0x80)) :: cs)
                  else none
                else none

/-- `Kernel::read_file_content`. -/
def Kernel.read_file_content (k : Kernel) (inode_id : Nat) :
    Except (List Char) (List Char) :=
  match k.inode_map inode_id with
  | none => .error (chars "Inode not found")
  | some ino =>
      match utf8Decode ino.data with
      | some s => .ok s
      | none => .error (chars "File content is not valid UTF-8")

/-- Rust `u8::from_str` after `str::trim`: an optional leading `+` sign
(for an unsigned type a `-` is not stripped and fails the digit check, so
any `-`-prefixed input is rejected), then at least one ASCII digit, with
checked arithmetic (a value above 255 fails; since the accumulated value
never decreases along the digits, a step of `checked_mul`/`checked_add`
overflows exactly when the final value exceeds 255). -/
def parseU8 (s : List Char) : Option Nat :=
  match s with
  | [] => none
  | c :: rest =>
    let digits := if c = '+' then rest else s
    if digits = [] then none
    else if digits.all (fun d => '0' ≤ d ∧ d ≤ '9') then
      let v : Nat := digits.foldl (fun acc d => acc * 10 + (d.toNat - 48)) 0
      if v ≤ 255 then some v else none
    else none

/-- `char::is_whitespace`: the Unicode `White_Space` code points. -/
def isRustWhitespace (c : Char) : Bool :=
  c.toNat ∈ [0x09, 0x0A, 0x0B, 0x0C, 0x0D, 0x20, 0x85, 0xA0, 0x1680,
    0x2000, 0x2001, 0x2002, 0x2003, 0x2004, 0x2005, 0x2006, 0x2007,
    0x2008, 0x2009, 0x200A, 0x2028, 0x2029, 0x202F, 0x205F, 0x3000]

/-- `str::trim`. -/
def trimWs (l : List Char) : List Char :=
  ((l.dropWhile isRustWhitespace).reverse.dropWhile isRustWhitespace).reverse

/-- `Vec::join(",")` on a list of rendered pieces. -/
def joinComma : List (List Char) → List Char
  | [] => []
  | [p] => p
  | p :: rest => p ++ ',' :: joinComma rest

/-- `u8::to_string`: decimal digits, fuel-driven (fuel `n + 1` always
suffices since a number has at most `n + 1` digits). -/
def natDigitsAux : Nat → Nat → List Char → List Char
  | 0, _, acc => acc
  | fuel + 1, n, acc =>
    let d := Char.ofNat (48 + n % 10)
    if n < 10 then d :: acc else natDigitsAux fuel (n / 10) (d :: acc)

/-- Decimal rendering of a byte, as `format!("{}", b)` produces. -/
def natDigits (n : Nat) : List Char := natDigitsAux (n + 1) n []

/-- `boot`: mark booted, set the clock, seed `/bin`, `/etc`, `/home`, `/tmp`
under the root, return the banner. -/
def boot (k : Kernel) (current_time_ms : Nat) : List Char × Kernel :=
  let k0 : Kernel :=
    { k with booted := true, start_time_ms := current_time_ms,
             current_time_ms := current_time_ms }
  let k1 := (k0.create_inode 0 (chars "bin") .Directory).2
  let k2 := (k1.create_inode 0 (chars "etc") .Directory).2
  let k3 := (k2.create_inode 0 (chars "home") .Directory).2
  let k4 := (k3.create_inode 0 (chars "tmp") .Directory).2
  (chars "BrowserOS v0.2 (WASM-based virtual OS)\nType 'help' for command list.\n", k4)

/-- `update_time`. -/
def update_time (k : Kernel) (current_time_ms : Nat) : Kernel :=
  { k with current_time_ms := current_time_ms }

/-- `fs_open`. -/
def fs_open (k : Kernel) (path : List Char) (mode : List Char) : Int × Kernel :=
  match k.get_inode path with
  | .ok inode_id =>
      match k.open_file inode_id mode with
      | (.ok fd, k') => ((fd : Int), k')
      | (.error _, k') => (-1, k')
  | .error _ => (-1, k)

/-- `fs_read`: bytes rendered as comma-separated decimal values, empty
string on error; `none` is the propagated panic of `Kernel::read_file`. -/
def fs_read (k : Kernel) (fd : Nat) (size : Nat) : Option (List Char × Kernel) :=
  match k.read_file fd size with
  | some (.ok data, k') => some (joinComma (data.map natDigits), k')
  | some (.error _, k') => some ([], k')
  | none => none

/-- `fs_write`: parse the comma-separated decimal byte values (skipping
empty pieces, trimming each, failing on the first bad piece), then append. -/
def fs_write (k : Kernel) (fd : Nat) (data : List Char) : Int × Kernel :=
  let pieces := (splitChar ',' data).filter (fun s => ¬ s = [])
  match pieces.mapM (fun s => parseU8 (trimWs s)) with
  | some bytes =>
      match k.write_file fd bytes with
      | (.ok written, k') => ((written : Int), k')
      | (.error _, k') => (-1, k')
  | none => (-1, k)

/-- `fs_create`: trim slashes, reject an empty result, split at the last
`/` into parent path and name, resolve the parent, create. -/
def fs_create (k : Kernel) (path : List Char) (is_dir : Bool) : Int × Kernel :=
  let p := trimSlashes path
  if p = [] then (-1, k)
  else
    match rsplitSlash p with
    | some (parent_path, name) =>
        if name = [] then (-1, k)
        else
          match k.get_inode parent_path with
          | .ok parent_id =>
              match k.create_inode parent_id name
                  (if is_dir then .Directory else .File) with
              | (.ok _, k') => (0, k')
              | (.error _, k') => (-1, k')
          | .error _ => (-1, k)
    | none =>
        match k.create_inode 0 p (if is_dir then .Directory else .File) with
        | (.ok _, k') => (0, k')
        | (.error _, k') => (-1, k')

/-- `fs_close`. -/
def fs_close (k : Kernel) (fd : Nat) : Int × Kernel :=
  match k.close_file fd with
  | (.ok _, k') => (0, k')
  | (.error _, k') => (-1, k')

/-- `fs_list`. -/
def fs_list (k : Kernel) (path : List Char) : List Char :=
  match k.get_inode path with
  | .ok inode_id =>
      match k.list_directory inode_id with
      | .ok entries => joinComma entries
      | .error _ => []
  | .error _ => []

/-- `fs_exists`: 1 for a directory, 0 for a file, -1 when not found. -/
def fs_exists (k : Kernel) (path : List Char) : Int :=
  match k.get_inode path with
  | .ok inode_id =>
      match k.inode_map inode_id with
      | some ino => if ino.inode_type = .Directory then 1 else 0
      | none => -1
  | .error _ => -1

/-- `fs_cat`. -/
def fs_cat (k : Kernel) (path : List Char) : List Char :=
  match k.get_inode path with
  | .ok inode_id =>
      match k.read_file_content inode_id with
      | .ok content => content
      | .error e => chars "Error: " ++ e
  | .error e => chars "Error: " ++ e

/-- `uname`. -/
def uname_out : List Char := chars "BrowserOS v0.2 (wasm32-unknown-unknown)"

/-- The `help()` text. -/
def helpText : List Char := chars "=== BrowserOS Shell ===\nFILESYSTEM COMMANDS:\n  ls [path]          - List directory contents\n  cat [path]         - Print file contents\n  touch [path]       - Create an empty file\n  mkdir [path]       - Create a directory\n  echo TEXT > FILE   - Write text to file\n\nSYSTEM COMMANDS:\n  help               - Show this help\n  clear              - Clear terminal\n  uname              - Show system info\n  uptime             - Show uptime\n\nPROCESS COMMANDS:\n  ps                 - List processes\n  \nTIPS:\n  - Paths start with / (e.g., /home/user/file.txt)\n  - Use '>' for redirection: echo hello > /tmp/test.txt\n"

/-- `handle_command` (the unknown-command arm formats the original,
untrimmed input, as the source does). -/
def handle_command (k : Kernel) (cmd : List Char) : List Char :=
  let t := trimWs cmd
  if t = chars "help" then helpText
  else if t = chars "clear" then []
  else if t = chars "uname" then uname_out
  else if t = chars "uptime" then
    let up := k.get_uptime_ms
    let secs := up / 1000
    let mins := secs / 60
    let hrs := mins / 60
    chars "Uptime: " ++ natDigits hrs ++ chars "h " ++ natDigits (mins % 60) ++
      chars "m " ++ natDigits (secs % 60) ++ chars "s"
  else chars "Command not found: " ++ cmd

/-- `process_spawn`. -/
def process_spawn (k : Kernel) (parent_pid : Nat) : Nat × Kernel :=
  k.create_process parent_pid

/-- One boundary operation of the kernel, with its arguments. -/
inductive Op
  | opBoot (t : Nat)
  | opUpdateTime (t : Nat)
  | opFsOpen (path mode : List Char)
  | opFsRead (fd size : Nat)
  | opFsWrite (fd : Nat) (data : List Char)
  | opFsCreate (path : List Char) (is_dir : Bool)
  | opFsClose (fd : Nat)
  | opFsList (path : List Char)
  | opFsExists (path : List Char)
  | opFsCat (path : List Char)
  | opSpawn (parent_pid : Nat)
  | opGetUptime
  | opUname
  | opHandleCommand (cmd : List Char)

/-- The result a boundary operation marshals back to the host. -/
inductive Out
  | int (i : Int)
  | str (s : List Char)
  | nat (n : Nat)
  | unit

/-- Run one boundary operation: its marshalled result together with the
kernel state after the call.  `none` is the one possible panic
(`fs_read` with a cursor beyond the content length). -/
def stepOut (k : Kernel) : Op → Option (Out × Kernel)
  | .opBoot t => some (.str (boot k t).1, (boot k t).2)
  | .opUpdateTime t => some (.unit, update_time k t)
  | .opFsOpen p m => some (.int (fs_open k p m).1, (fs_open k p m).2)
  | .opFsRead fd size => (fs_read k fd size).map (fun r => (.str r.1, r.2))
  | .opFsWrite fd d => some (.int (fs_write k fd d).1, (fs_write k fd d).2)
  | .opFsCreate p b => some (.int (fs_create k p b).1, (fs_create k p b).2)
  | .opFsClose fd => some (.int (fs_close k fd).1, (fs_close k fd).2)
  | .opFsList p => some (.str (fs_list k p), k)
  | .opFsExists p => some (.int (fs_exists k p), k)
  | .opFsCat p => some (.str (fs_cat k p), k)
  | .opSpawn ppid => some (.nat (process_spawn k ppid).1, (process_spawn k ppid).2)
  | .opGetUptime => some (.nat k.get_uptime_ms, k)
  | .opUname => some (.str uname_out, k)
  | .opHandleCommand c => some (.str (handle_command k c), k)

/-- The state transition of one boundary operation. -/
def stepK (k : Kernel) (op : Op) : Option Kernel := (stepOut k op).map (·.2)

/-- Kernel states reachable from `Kernel::new` by boundary operations. -/
inductive Reachable : Kernel → Prop
  | init : Reachable Kernel.new
  | step {k k' : Kernel} {op : Op} : Reachable k → stepK k op = some k' → Reachable k'

/-- The path-resolution walk exactly as the specification's section 4.2
states it: skip empty components, look the component up in the current
inode's child mapping, fail with a path-component-not-found error naming
the first absent component. -/
def resolveSpecWalk (k : Kernel) : Nat → List (List Char) → Except (List Char) Nat
  | cur, [] => .ok cur
  | cur, c :: rest =>
    if c = [] then resolveSpecWalk k cur rest
    else
      match (k.inode_map cur).bind (fun ino => alookup ino.children c) with
      | some nxt => resolveSpecWalk k nxt rest
      | none => .error (chars "Path component not found: " ++ c)

/-- Resolution as the specification states it: trim leading and trailing
slashes, resolve the empty path to the root id, otherwise split on `/` and
walk from the root. -/
def resolveSpec (k : Kernel) (path : List Char) : Except (List Char) Nat :=
  let p := trimSlashes path
  if p = [] then .ok k.root_inode_id
  else resolveSpecWalk k k.root_inode_id (splitChar '/' p)

/-- The boundary failure signal of each operation, following section 6 of
the specification: the -1 sentinel for open, write, create, close and
exists, the empty string for read and list, and an `Error: `-prefixed
message for cat.  The remaining operations have no designated failure
result. -/
def failureResult : Op → Out → Prop
  | .opFsOpen _ _, .int i => i = -1
  | .opFsRead _ _, .str s => s = []
  | .opFsWrite _ _, .int i => i = -1
  | .opFsCreate _ _, .int i => i = -1
  | .opFsClose _, .int i => i = -1
  | .opFsList _, .str s => s = []
  | .opFsExists _, .int i => i = -1
  | .opFsCat _, .str s => s.take 7 = chars "Error: "
  | _, _ => False

/-- The booted kernel of the concrete boot scenario. -/
def c2s0 : Kernel := (boot Kernel.new 0).2

/-- After `create("/home/doc.txt", false)`. -/
def c2s1 : Kernel := (fs_create c2s0 (chars "/home/doc.txt") false).2

/-- After `open("/home/doc.txt", "w")`. -/
def c2s2 : Kernel := (fs_open c2s1 (chars "/home/doc.txt") (chars "w")).2

/-- After `write(3, "72,105")`. -/
def c2s3 : Kernel := (fs_write c2s2 3 (chars "72,105")).2

/-- After `close(3)`. -/
def c2s4 : Kernel := (fs_close c2s3 3).2

/-- A fresh kernel after `create("f", false)`: the root directory has the
single child `f` mapped to inode 1. -/
def kFile : Kernel := (fs_create Kernel.new (chars "f") false).2

/-- `kFile` after `open("f", "r")`: descriptor 3 is open on inode 1 with
cursor 0. -/
def kOpen : Kernel := (fs_open kFile (chars "f") (chars "r")).2

/-- `kOpen` after `write(3, "7")`: inode 1 holds the single byte 7. -/
def kWrite : Kernel := (fs_write kOpen 3 (chars "7")).2

/-- `kWrite` after `read(3, 1)`: descriptor 3 now has cursor 1, at the end
of the one-byte content of inode 1. -/
def kEOF : Kernel := ((fs_read kWrite 3 1).map (fun r => r.2)).getD kWrite

/-- The reachable-state invariant of the kernel's virtual file system. -/
structure Inv (k : Kernel) : Prop where
  root_id : k.root_inode_id = 0
  root : ∃ r, k.inode_map 0 = some r ∧ r.inode_type = .Directory ∧ r.parent = none
  next_pos : 1 ≤ k.next_inode_id
  dom_lt : ∀ id ino, k.inode_map id = some ino → id < k.next_inode_id
  closed : ∀ id ino n c, k.inode_map id = some ino →
    alookup ino.children n = some c → (k.inode_map c).isSome
  uniq : ∀ id1 ino1 n1 id2 ino2 n2 c,
    k.inode_map id1 = some ino1 → k.inode_map id2 = some ino2 →
    alookup ino1.children n1 = some c → alookup ino2.children n2 = some c →
    id1 = id2 ∧ n1 = n2
  fd_ok : ∀ fd d, k.open_files fd = some d →
    ∃ ino, k.inode_map d.inode_id = some ino ∧ d.offset ≤ ino.data.length

theorem fupdate_self {β : Type} (m : Nat → Option β) (key : Nat) (v : Option β) :
    fupdate m key v key = v := by
  simp [fupdate]

theorem fupdate_other {β : Type} (m : Nat → Option β) (key x : Nat) (v : Option β)
    (h : ¬ x = key) : fupdate m key v x = m x := by
  simp [fupdate, h]

theorem alookup_ainsert (l : ChildMap) (n : List Char) (v : Nat) (m : List Char) :
    alookup (ainsert l n v) m = if m = n then some v else alookup l m := by
  induction l with
  | nil => by_cases h : m = n <;> simp [ainsert, alookup, h]
  | cons kv rest ih =>
      obtain ⟨k, w⟩ := kv
      by_cases hnk : n = k
      · subst hnk
        by_cases hmn : m = n <;> simp [ainsert, alookup, hmn]
      · by_cases hmk : m = k
        · subst hmk
          have hmn : ¬ m = n := fun hc => hnk (hc ▸ rfl)
          simp [ainsert, alookup, hnk, hmn]
        · by_cases hmn : m = n
          · subst hmn
            simp [ainsert, alookup, hnk, hmk, ih]
          · simp [ainsert, alookup, hnk, hmk, hmn, ih]

theorem inv_new : Inv Kernel.new := by
  refine ⟨rfl, ⟨_, rfl, rfl, rfl⟩, Nat.le_refl 1, ?_, ?_, ?_, ?_⟩
  · intro id ino hid
    by_cases h0 : id = 0
    · subst h0
      simp [Kernel.new]
    · simp [Kernel.new, fupdate, h0] at hid
  · intro id ino n c hid hl
    by_cases h0 : id = 0
    · subst h0
      simp [Kernel.new, fupdate] at hid
      subst hid
      simp [alookup] at hl
    · simp [Kernel.new, fupdate, h0] at hid
  · intro id1 ino1 n1 id2 ino2 n2 c h1 h2 l1 l2
    by_cases h0 : id1 = 0
    · subst h0
      simp [Kernel.new, fupdate] at h1
      subst h1
      simp [alookup] at l1
    · simp [Kernel.new, fupdate, h0] at h1
  · intro fd d hfd
    simp [Kernel.new] at hfd

theorem refs_lt {k : Kernel} (h : Inv k) {id : Nat} {ino : Inode} {n : List Char}
    {c : Nat} (hid : k.inode_map id = some ino)
    (hl : alookup ino.children n = some c) : c < k.next_inode_id := by
  obtain ⟨cino, hc⟩ := Option.isSome_iff_exists.mp (h.closed id ino n c hid hl)
  exact h.dom_lt c cino hc

theorem inv_insert_fresh (k : Kernel) (p : Nat) (nm : List Char) (ty : InodeType)
    (h : Inv k) :
    Inv { k with
            next_inode_id := k.next_inode_id + 1
            inode_map := fupdate k.inode_map k.next_inode_id
              (some { id := k.next_inode_id, inode_type := ty, name := nm, data := [],
                      children := [], parent := some p }) } := by
  obtain ⟨hroot_id, ⟨r, hr, hrdir, hrpar⟩, hpos, hdom, hclosed, huniq, hfd⟩ := h
  have hfresh : ∀ i ino (n : List Char) c,
      fupdate k.inode_map k.next_inode_id
        (some { id := k.next_inode_id, inode_type := ty, name := nm, data := [],
                children := [], parent := some p }) i = some ino →
      alookup ino.children n = some c → k.inode_map i = some ino := by
    intro i ino n c hid hl
    by_cases hin : i = k.next_inode_id
    · simp only [fupdate, hin, if_pos, Option.some.injEq] at hid
      subst hid
      simp [alookup] at hl
    · simpa only [fupdate, hin, if_neg, ite_false] using hid
  refine ⟨hroot_id, ⟨r, ?_, hrdir, hrpar⟩, ?_, ?_, ?_, ?_, ?_⟩
  · show fupdate k.inode_map k.next_inode_id _ 0 = some r
    have hnid0 : ¬ ((0 : Nat) = k.next_inode_id) := by omega
    rw [fupdate_other _ _ _ _ hnid0]
    exact hr
  · show 1 ≤ k.next_inode_id + 1
    omega
  · intro i ino hid
    show i < k.next_inode_id + 1
    replace hid : fupdate k.inode_map k.next_inode_id _ i = some ino := hid
    by_cases hin : i = k.next_inode_id
    · omega
    · rw [fupdate_other _ _ _ _ hin] at hid
      exact Nat.lt_succ_of_lt (hdom i ino hid)
  · intro i ino n c hid hl
    replace hid : fupdate k.inode_map k.next_inode_id _ i = some ino := hid
    have hold := hfresh i ino n c hid hl
    have hsome := hclosed i ino n c hold hl
    show (fupdate k.inode_map k.next_inode_id _ c).isSome
    by_cases hcn : c = k.next_inode_id
    · rw [hcn, fupdate_self]
      rfl
    · rw [fupdate_other _ _ _ _ hcn]
      exact hsome
  · intro id1 ino1 n1 id2 ino2 n2 c h1 h2 l1 l2
    exact huniq id1 ino1 n1 id2 ino2 n2 c (hfresh id1 ino1 n1 c h1 l1)
      (hfresh id2 ino2 n2 c h2 l2) l1 l2
  · intro fd d hopen
    obtain ⟨ino, hino, hoff⟩ := hfd fd d hopen
    refine ⟨ino, ?_, hoff⟩
    have hne : ¬ d.inode_id = k.next_inode_id := by
      have := hdom d.inode_id ino hino
      omega
    show fupdate k.inode_map k.next_inode_id _ d.inode_id = some ino
    rw [fupdate_other _ _ _ _ hne]
    exact hino

theorem inv_link (k : Kernel) (p nid : Nat) (nm : List Char) (parent : Inode)
    (h : Inv k)
    (hp : k.inode_map p = some parent)
    (hnid_some : (k.inode_map nid).isSome)
    (hrefs : ∀ i ino (n : List Char) c, k.inode_map i = some ino →
      alookup ino.children n = some c → ¬ c = nid) :
    Inv { k with
            inode_map := fupdate k.inode_map p
              (some { parent with children := ainsert parent.children nm nid }) } := by
  obtain ⟨hroot_id, ⟨r, hr, hrdir, hrpar⟩, hpos, hdom, hclosed, huniq, hfd⟩ := h
  have hsome_pres : ∀ c, (k.inode_map c).isSome →
      (fupdate k.inode_map p
        (some { parent with children := ainsert parent.children nm nid }) c).isSome := by
    intro c hc
    by_cases hcp : c = p
    · rw [hcp, fupdate_self]
      rfl
    · rw [fupdate_other _ _ _ _ hcp]
      exact hc
  have hnew_ref : ∀ i ino (n : List Char) c,
      fupdate k.inode_map p
        (some { parent with children := ainsert parent.children nm nid }) i = some ino →
      alookup ino.children n = some c →
      (i = p ∧ n = nm ∧ c = nid) ∨
        (∃ ino₀, k.inode_map i = some ino₀ ∧ alookup ino₀.children n = some c) := by
    intro i ino n c hid hl
    by_cases hip : i = p
    · rw [hip, fupdate_self] at hid
      obtain rfl : _ = ino := Option.some.inj hid
      rw [alookup_ainsert] at hl
      by_cases hnm : n = nm
      · rw [if_pos hnm] at hl
        exact Or.inl ⟨hip, hnm, (Option.some.inj hl).symm⟩
      · rw [if_neg hnm] at hl
        exact Or.inr ⟨parent, hip ▸ hp, hl⟩
    · rw [fupdate_other _ _ _ _ hip] at hid
      exact Or.inr ⟨ino, hid, hl⟩
  refine ⟨hroot_id, ?_, hpos, ?_, ?_, ?_, ?_⟩
  · by_cases hp0 : p = 0
    · subst hp0
      obtain rfl : r = parent := Option.some.inj (hr.symm.trans hp)
      refine ⟨{ r with children := ainsert r.children nm nid }, ?_, hrdir, hrpar⟩
      exact fupdate_self k.inode_map 0 _
    · refine ⟨r, ?_, hrdir, hrpar⟩
      show fupdate k.inode_map p _ 0 = some r
      have h0p : ¬ (0 : Nat) = p := fun hc => hp0 hc.symm
      rw [fupdate_other _ _ _ _ h0p]
      exact hr
  · intro i ino hid
    replace hid : fupdate k.inode_map p _ i = some ino := hid
    show i < k.next_inode_id
    by_cases hip : i = p
    · subst hip
      exact hdom i parent hp
    · rw [fupdate_other _ _ _ _ hip] at hid
      exact hdom i ino hid
  · intro i ino n c hid hl
    replace hid : fupdate k.inode_map p _ i = some ino := hid
    show (fupdate k.inode_map p _ c).isSome
    rcases hnew_ref i ino n c hid hl with ⟨_, _, hcn⟩ | ⟨ino₀, hid₀, hl₀⟩
    · rw [hcn]
      exact hsome_pres nid hnid_some
    · exact hsome_pres c (hclosed i ino₀ n c hid₀ hl₀)
  · intro id1 ino1 n1 id2 ino2 n2 c h1 h2 l1 l2
    replace h1 : fupdate k.inode_map p _ id1 = some ino1 := h1
    replace h2 : fupdate k.inode_map p _ id2 = some ino2 := h2
    by_cases hc : c = nid
    · have only_new : ∀ i ino (n : List Char),
          fupdate k.inode_map p
            (some { parent with children := ainsert parent.children nm nid }) i = some ino →
          alookup ino.children n = some c → i = p ∧ n = nm := by
        intro i ino n hid hl
        rcases hnew_ref i ino n c hid hl with ⟨hip, hnm, _⟩ | ⟨ino₀, hid₀, hl₀⟩
        · exact ⟨hip, hnm⟩
        · exact absurd hc (hrefs i ino₀ n c hid₀ hl₀)
      obtain ⟨hip1, hnm1⟩ := only_new id1 ino1 n1 h1 l1
      obtain ⟨hip2, hnm2⟩ := only_new id2 ino2 n2 h2 l2
      exact ⟨hip1.trans hip2.symm, hnm1.trans hnm2.symm⟩
    · have old1 := hnew_ref id1 ino1 n1 c h1 l1
      have old2 := hnew_ref id2 ino2 n2 c h2 l2
      rcases old1 with ⟨_, _, hcn⟩ | ⟨ino1₀, hid1₀, hl1₀⟩
      · exact absurd hcn hc
      rcases old2 with ⟨_, _, hcn⟩ | ⟨ino2₀, hid2₀, hl2₀⟩
      · exact absurd hcn hc
      exact huniq id1 ino1₀ n1 id2 ino2₀ n2 c hid1₀ hid2₀ hl1₀ hl2₀
  · intro fd d hopen
    obtain ⟨ino, hino, hoff⟩ := hfd fd d hopen
    by_cases hdp : d.inode_id = p
    · have hino' : k.inode_map p = some ino := hdp ▸ hino
      have hip : ino = parent := Option.some.inj (hino'.symm.trans hp)
      rw [hip] at hoff
      refine ⟨{ parent with children := ainsert parent.children nm nid }, ?_, hoff⟩
      show fupdate k.inode_map p _ d.inode_id = _
      rw [hdp]
      exact fupdate_self k.inode_map p _
    · refine ⟨ino, ?_, hoff⟩
      show fupdate k.inode_map p _ d.inode_id = some ino
      rw [fupdate_other _ _ _ _ hdp]
      exact hino

theorem inv_create_inode (k : Kernel) (p : Nat) (nm : List Char) (ty : InodeType)
    (h : Inv k) : Inv (k.create_inode p nm ty).2 := by
  have h2 := inv_insert_fresh k p nm ty h
  unfold Kernel.create_inode
  dsimp only
  split
  · rename_i parent hpar
    split
    · rename_i hdir
      refine inv_link { k with
          next_inode_id := k.next_inode_id + 1
          inode_map := fupdate k.inode_map k.next_inode_id
            (some { id := k.next_inode_id, inode_type := ty, name := nm, data := [],
                    children := [], parent := some p }) } p k.next_inode_id nm parent
        h2 hpar ?_ ?_
      · show (fupdate k.inode_map k.next_inode_id _ k.next_inode_id).isSome
        rw [fupdate_self]
        rfl
      · intro i ino n c hid hl hc
        replace hid : fupdate k.inode_map k.next_inode_id
            (some { id := k.next_inode_id, inode_type := ty, name := nm, data := [],
                    children := [], parent := some p }) i = some ino := hid
        by_cases hin : i = k.next_inode_id
        · rw [hin, fupdate_self] at hid
          obtain rfl : _ = ino := Option.some.inj hid
          simp [alookup] at hl
        · rw [fupdate_other _ _ _ _ hin] at hid
          have := refs_lt h hid hl
          omega
    · exact h2
  · exact h2

theorem write_file_ok (k : Kernel) (fd : Nat) (b : List Nat) (d : FileDescriptor)
    (ino : Inode) (hfd : k.open_files fd = some d)
    (hino : k.inode_map d.inode_id = some ino) :
    k.write_file fd b =
      (.ok b.length,
       { k with inode_map :=
           fupdate k.inode_map d.inode_id (some { ino with data := ino.data ++ b }) }) := by
  simp [Kernel.write_file, hfd, hino]

theorem write_file_no_fd (k : Kernel) (fd : Nat) (b : List Nat)
    (hfd : k.open_files fd = none) :
    k.write_file fd b = (.error (chars "File descriptor not found"), k) := by
  simp [Kernel.write_file, hfd]

theorem write_file_no_inode (k : Kernel) (fd : Nat) (b : List Nat) (d : FileDescriptor)
    (hfd : k.open_files fd = some d) (hino : k.inode_map d.inode_id = none) :
    k.write_file fd b = (.error (chars "Inode not found"), k) := by
  simp [Kernel.write_file, hfd, hino]

theorem read_file_ok (k : Kernel) (fd size : Nat) (d : FileDescriptor) (ino : Inode)
    (hfd : k.open_files fd = some d) (hino : k.inode_map d.inode_id = some ino)
    (hov : d.offset + size < 4294967296)
    (hle : d.offset ≤ min (d.offset + size) ino.data.length) :
    k.read_file fd size =
      some (.ok ((ino.data.drop d.offset).take
          (min (d.offset + size) ino.data.length - d.offset)),
        { k with open_files :=
            fupdate k.open_files fd (some { d with offset := min (d.offset + size) ino.data.length }) }) := by
  simp [Kernel.read_file, hfd, hino, hov, hle]

theorem read_file_no_fd (k : Kernel) (fd size : Nat)
    (hfd : k.open_files fd = none) :
    k.read_file fd size = some (.error (chars "File descriptor not found"), k) := by
  simp [Kernel.read_file, hfd]

theorem read_file_no_inode (k : Kernel) (fd size : Nat) (d : FileDescriptor)
    (hfd : k.open_files fd = some d) (hino : k.inode_map d.inode_id = none) :
    k.read_file fd size = some (.error (chars "Inode not found"), k) := by
  simp [Kernel.read_file, hfd, hino]

theorem read_file_panic (k : Kernel) (fd size : Nat) (d : FileDescriptor) (ino : Inode)
    (hfd : k.open_files fd = some d) (hino : k.inode_map d.inode_id = some ino)
    (hov : d.offset + size < 4294967296)
    (hgt : ¬ d.offset ≤ min (d.offset + size) ino.data.length) :
    k.read_file fd size = none := by
  simp [Kernel.read_file, hfd, hino, hov, hgt]

theorem read_file_overflow (k : Kernel) (fd size : Nat) (d : FileDescriptor)
    (ino : Inode) (hfd : k.open_files fd = some d)
    (hino : k.inode_map d.inode_id = some ino)
    (hov : ¬ d.offset + size < 4294967296) :
    k.read_file fd size = none := by
  simp [Kernel.read_file, hfd, hino, hov]

theorem open_file_ok (k : Kernel) (iid : Nat) (m : List Char) (ino : Inode)
    (hino : k.inode_map iid = some ino) :
    k.open_file iid m =
      (.ok k.next_fd,
       { k with next_fd := k.next_fd + 1,
                open_files :=
                  fupdate k.open_files k.next_fd (some { inode_id := iid, offset := 0, mode := m }) }) := by
  simp [Kernel.open_file, hino]

theorem inv_update_data (k : Kernel) (tid : Nat) (ino : Inode) (b : List Nat)
    (h : Inv k) (hino : k.inode_map tid = some ino) :
    Inv { k with
            inode_map := fupdate k.inode_map tid
              (some { ino with data := ino.data ++ b }) } := by
  obtain ⟨hroot_id, ⟨r, hr, hrdir, hrpar⟩, hpos, hdom, hclosed, huniq, hfd⟩ := h
  have htrans : ∀ i ino', fupdate k.inode_map tid
      (some { ino with data := ino.data ++ b }) i = some ino' →
      ∃ ino₀, k.inode_map i = some ino₀ ∧ ino₀.children = ino'.children := by
    intro i ino' hid
    by_cases hit : i = tid
    · rw [hit, fupdate_self] at hid
      obtain rfl : _ = ino' := Option.some.inj hid
      exact ⟨ino, hit ▸ hino, rfl⟩
    · rw [fupdate_other _ _ _ _ hit] at hid
      exact ⟨ino', hid, rfl⟩
  have hsome_pres : ∀ c, (k.inode_map c).isSome →
      (fupdate k.inode_map tid (some { ino with data := ino.data ++ b }) c).isSome := by
    intro c hc
    by_cases hct : c = tid
    · rw [hct, fupdate_self]
      rfl
    · rw [fupdate_other _ _ _ _ hct]
      exact hc
  refine ⟨hroot_id, ?_, hpos, ?_, ?_, ?_, ?_⟩
  · by_cases ht0 : tid = 0
    · have hino0 : k.inode_map 0 = some ino := ht0 ▸ hino
      have hir : ino = r := Option.some.inj (hino0.symm.trans hr)
      refine ⟨{ ino with data := ino.data ++ b }, ?_, ?_, ?_⟩
      · show fupdate k.inode_map tid _ 0 = _
        rw [ht0]
        exact fupdate_self k.inode_map 0 _
      · show ino.inode_type = InodeType.Directory
        rw [hir]
        exact hrdir
      · show ino.parent = none
        rw [hir]
        exact hrpar
    · refine ⟨r, ?_, hrdir, hrpar⟩
      show fupdate k.inode_map tid _ 0 = some r
      have h0t : ¬ (0 : Nat) = tid := fun hc => ht0 hc.symm
      rw [fupdate_other _ _ _ _ h0t]
      exact hr
  · intro i ino' hid
    replace hid : fupdate k.inode_map tid _ i = some ino' := hid
    show i < k.next_inode_id
    by_cases hit : i = tid
    · subst hit
      exact hdom i ino hino
    · rw [fupdate_other _ _ _ _ hit] at hid
      exact hdom i ino' hid
  · intro i ino' n c hid hl
    replace hid : fupdate k.inode_map tid _ i = some ino' := hid
    obtain ⟨ino₀, hid₀, hch⟩ := htrans i ino' hid
    rw [← hch] at hl
    exact hsome_pres c (hclosed i ino₀ n c hid₀ hl)
  · intro id1 ino1 n1 id2 ino2 n2 c h1 h2 l1 l2
    replace h1 : fupdate k.inode_map tid _ id1 = some ino1 := h1
    replace h2 : fupdate k.inode_map tid _ id2 = some ino2 := h2
    obtain ⟨ino1₀, hid1₀, hch1⟩ := htrans id1 ino1 h1
    obtain ⟨ino2₀, hid2₀, hch2⟩ := htrans id2 ino2 h2
    rw [← hch1] at l1
    rw [← hch2] at l2
    exact huniq id1 ino1₀ n1 id2 ino2₀ n2 c hid1₀ hid2₀ l1 l2
  · intro fd d hopen
    obtain ⟨ino', hino', hoff⟩ := hfd fd d hopen
    by_cases hdt : d.inode_id = tid
    · have hino'' : k.inode_map tid = some ino' := hdt ▸ hino'
      have hii : ino' = ino := Option.some.inj (hino''.symm.trans hino)
      rw [hii] at hoff
      refine ⟨{ ino with data := ino.data ++ b }, ?_, ?_⟩
      · show fupdate k.inode_map tid _ d.inode_id = _
        rw [hdt]
        exact fupdate_self k.inode_map tid _
      · show d.offset ≤ (ino.data ++ b).length
        rw [List.length_append]
        omega
    · refine ⟨ino', ?_, hoff⟩
      show fupdate k.inode_map tid _ d.inode_id = some ino'
      rw [fupdate_other _ _ _ _ hdt]
      exact hino'

theorem inv_write_file (k : Kernel) (fd : Nat) (b : List Nat) (h : Inv k) :
    Inv (k.write_file fd b).2 := by
  cases hfd : k.open_files fd with
  | none =>
      rw [write_file_no_fd k fd b hfd]
      exact h
  | some d =>
      cases hino : k.inode_map d.inode_id with
      | none =>
          rw [write_file_no_inode k fd b d hfd hino]
          exact h
      | some ino =>
          rw [write_file_ok k fd b d ino hfd hino]
          exact inv_update_data k d.inode_id ino b h hino

theorem inv_open_file (k : Kernel) (iid : Nat) (mode : List Char) (h : Inv k) :
    Inv (k.open_file iid mode).2 := by
  unfold Kernel.open_file
  cases hino : k.inode_map iid with
  | none => exact h
  | some ino =>
      refine ⟨h.root_id, h.root, h.next_pos, h.dom_lt, h.closed, h.uniq, ?_⟩
      intro fd d hopen
      replace hopen : fupdate k.open_files k.next_fd
          (some { inode_id := iid, offset := 0, mode := mode }) fd = some d := hopen
      by_cases hf : fd = k.next_fd
      · rw [hf, fupdate_self] at hopen
        obtain rfl : _ = d := Option.some.inj hopen
        exact ⟨ino, hino, Nat.zero_le _⟩
      · rw [fupdate_other _ _ _ _ hf] at hopen
        exact h.fd_ok fd d hopen

theorem inv_read_file (k : Kernel) (fd size : Nat)
    (r : Except (List Char) (List Nat) × Kernel)
    (hr : k.read_file fd size = some r) (h : Inv k) : Inv r.2 := by
  cases hfd : k.open_files fd with
  | none =>
      rw [read_file_no_fd k fd size hfd] at hr
      obtain rfl : _ = r := Option.some.inj hr
      exact h
  | some d =>
      cases hino : k.inode_map d.inode_id with
      | none =>
          rw [read_file_no_inode k fd size d hfd hino] at hr
          obtain rfl : _ = r := Option.some.inj hr
          exact h
      | some ino =>
          by_cases hov : d.offset + size < 4294967296
          · by_cases hle : d.offset ≤ min (d.offset + size) ino.data.length
            · rw [read_file_ok k fd size d ino hfd hino hov hle] at hr
              obtain rfl : _ = r := Option.some.inj hr
              refine ⟨h.root_id, h.root, h.next_pos, h.dom_lt, h.closed, h.uniq, ?_⟩
              intro fd' d' hopen
              replace hopen : fupdate k.open_files fd
                  (some { d with offset := min (d.offset + size) ino.data.length }) fd'
                  = some d' := hopen
              by_cases hf : fd' = fd
              · rw [hf, fupdate_self] at hopen
                obtain rfl : _ = d' := Option.some.inj hopen
                exact ⟨ino, hino, Nat.min_le_right _ _⟩
              · rw [fupdate_other _ _ _ _ hf] at hopen
                exact h.fd_ok fd' d' hopen
            · rw [read_file_panic k fd size d ino hfd hino hov hle] at hr
              cases hr
          · rw [read_file_overflow k fd size d ino hfd hino hov] at hr
            cases hr

theorem inv_close_file (k : Kernel) (fd : Nat) (h : Inv k) :
    Inv (k.close_file fd).2 := by
  have base : Inv { k with open_files := fupdate k.open_files fd none } := by
    refine ⟨h.root_id, h.root, h.next_pos, h.dom_lt, h.closed, h.uniq, ?_⟩
    intro fd' d hopen
    replace hopen : fupdate k.open_files fd none fd' = some d := hopen
    by_cases hf : fd' = fd
    · rw [hf, fupdate_self] at hopen
      cases hopen
    · rw [fupdate_other _ _ _ _ hf] at hopen
      exact h.fd_ok fd' d hopen
  unfold Kernel.close_file
  dsimp only
  cases k.open_files fd <;> exact base

theorem inv_boot (k : Kernel) (t : Nat) (h : Inv k) : Inv (boot k t).2 := by
  unfold boot
  dsimp only
  refine inv_create_inode _ 0 _ _ (inv_create_inode _ 0 _ _
    (inv_create_inode _ 0 _ _ (inv_create_inode _ 0 _ _ ?_)))
  exact ⟨h.root_id, h.root, h.next_pos, h.dom_lt, h.closed, h.uniq, h.fd_ok⟩

theorem inv_create_inode_eq {k k2 : Kernel} {p : Nat} {nm : List Char}
    {ty : InodeType} {res : Except (List Char) Nat}
    (hci : k.create_inode p nm ty = (res, k2)) (h : Inv k) : Inv k2 := by
  have h2 := inv_create_inode k p nm ty h
  rw [hci] at h2
  exact h2

theorem inv_open_file_eq {k k2 : Kernel} {iid : Nat} {m : List Char}
    {res : Except (List Char) Nat}
    (hof : k.open_file iid m = (res, k2)) (h : Inv k) : Inv k2 := by
  have h2 := inv_open_file k iid m h
  rw [hof] at h2
  exact h2

theorem inv_write_file_eq {k k2 : Kernel} {fd : Nat} {b : List Nat}
    {res : Except (List Char) Nat}
    (hwf : k.write_file fd b = (res, k2)) (h : Inv k) : Inv k2 := by
  have h2 := inv_write_file k fd b h
  rw [hwf] at h2
  exact h2

theorem inv_close_file_eq {k k2 : Kernel} {fd : Nat} {res : Except (List Char) Unit}
    (hcf : k.close_file fd = (res, k2)) (h : Inv k) : Inv k2 := by
  have h2 := inv_close_file k fd h
  rw [hcf] at h2
  exact h2

theorem inv_fs_open (k : Kernel) (p m : List Char) (h : Inv k) :
    Inv (fs_open k p m).2 := by
  unfold fs_open
  split
  · split
    · rename_i heq
      exact inv_open_file_eq heq h
    · rename_i heq
      exact inv_open_file_eq heq h
  · exact h

theorem inv_fs_write (k : Kernel) (fd : Nat) (data : List Char) (h : Inv k) :
    Inv (fs_write k fd data).2 := by
  unfold fs_write
  dsimp only
  split
  · split
    · rename_i heq
      exact inv_write_file_eq heq h
    · rename_i heq
      exact inv_write_file_eq heq h
  · exact h

theorem inv_fs_create (k : Kernel) (p : List Char) (b : Bool) (h : Inv k) :
    Inv (fs_create k p b).2 := by
  unfold fs_create
  dsimp only
  split
  · exact h
  · split
    · split
      · exact h
      · split
        · split
          · rename_i heq
            exact inv_create_inode_eq heq h
          · rename_i heq
            exact inv_create_inode_eq heq h
        · exact h
    · split
      · rename_i heq
        exact inv_create_inode_eq heq h
      · rename_i heq
        exact inv_create_inode_eq heq h

theorem inv_fs_close (k : Kernel) (fd : Nat) (h : Inv k) : Inv (fs_close k fd).2 := by
  unfold fs_close
  split
  · rename_i heq
    exact inv_close_file_eq heq h
  · rename_i heq
    exact inv_close_file_eq heq h

theorem inv_fs_read (k : Kernel) (fd size : Nat) (r : List Char × Kernel)
    (hr : fs_read k fd size = some r) (h : Inv k) : Inv r.2 := by
  unfold fs_read at hr
  split at hr
  · rename_i q dta k2 hq
    obtain rfl : _ = r := Option.some.inj hr
    have h2 := inv_read_file k fd size (Except.ok dta, k2) hq h
    exact h2
  · rename_i q e k2 hq
    obtain rfl : _ = r := Option.some.inj hr
    have h2 := inv_read_file k fd size (Except.error e, k2) hq h
    exact h2
  · cases hr

theorem inv_step (k k' : Kernel) (op : Op) (h : Inv k) (hs : stepK k op = some k') :
    Inv k' := by
  cases op with
  | opBoot t =>
      obtain rfl : (boot k t).2 = k' := Option.some.inj hs
      exact inv_boot k t h
  | opUpdateTime t =>
      obtain rfl : update_time k t = k' := Option.some.inj hs
      exact ⟨h.root_id, h.root, h.next_pos, h.dom_lt, h.closed, h.uniq, h.fd_ok⟩
  | opFsOpen p m =>
      obtain rfl : (fs_open k p m).2 = k' := Option.some.inj hs
      exact inv_fs_open k p m h
  | opFsRead fd size =>
      simp only [stepK, stepOut] at hs
      cases hfr : fs_read k fd size with
      | none =>
          rw [hfr] at hs
          simp at hs
      | some r =>
          rw [hfr] at hs
          simp only [Option.map_some'] at hs
          have hrk : r.2 = k' := Option.some.inj hs
          rw [← hrk]
          exact inv_fs_read k fd size r hfr h
  | opFsWrite fd d =>
      obtain rfl : (fs_write k fd d).2 = k' := Option.some.inj hs
      exact inv_fs_write k fd d h
  | opFsCreate p b =>
      obtain rfl : (fs_create k p b).2 = k' := Option.some.inj hs
      exact inv_fs_create k p b h
  | opFsClose fd =>
      obtain rfl : (fs_close k fd).2 = k' := Option.some.inj hs
      exact inv_fs_close k fd h
  | opFsList p =>
      obtain rfl : k = k' := Option.some.inj hs
      exact h
  | opFsExists p =>
      obtain rfl : k = k' := Option.some.inj hs
      exact h
  | opFsCat p =>
      obtain rfl : k = k' := Option.some.inj hs
      exact h
  | opSpawn ppid =>
      obtain rfl : (process_spawn k ppid).2 = k' := Option.some.inj hs
      exact ⟨h.root_id, h.root, h.next_pos, h.dom_lt, h.closed, h.uniq, h.fd_ok⟩
  | opGetUptime =>
      obtain rfl : k = k' := Option.some.inj hs
      exact h
  | opUname =>
      obtain rfl : k = k' := Option.some.inj hs
      exact h
  | opHandleCommand c =>
      obtain rfl : k = k' := Option.some.inj hs
      exact h

theorem reachable_inv {k : Kernel} (h : Reachable k) : Inv k := by
  induction h with
  | init => exact inv_new
  | step hr hs ih => exact inv_step _ _ _ ih hs

theorem kFile_reachable : Reachable kFile :=
  @Reachable.step Kernel.new kFile (Op.opFsCreate (chars "f") false) Reachable.init rfl

theorem kOpen_reachable : Reachable kOpen :=
  @Reachable.step kFile kOpen (Op.opFsOpen (chars "f") (chars "r")) kFile_reachable rfl

/-- C2: starting from a freshly initialized kernel (`boot` at time 0), the
scripted sequence produces exactly the specified results: `exists("/home")`
is 1, `exists("/nope")` is -1, `create("/home/doc.txt", false)` is 0,
`exists("/home/doc.txt")` is 0, `open("/home/doc.txt","w")` returns
descriptor 3 (which is ≥ 3), `write(3, "72,105")` returns 2, `close(3)`
returns 0, and `cat("/home/doc.txt")` returns `"Hi"`. -/
theorem c2_boot_scenario :
    fs_exists c2s0 (chars "/home") = 1 ∧
    fs_exists c2s0 (chars "/nope") = -1 ∧
    (fs_create c2s0 (chars "/home/doc.txt") false).1 = 0 ∧
    fs_exists c2s1 (chars "/home/doc.txt") = 0 ∧
    (fs_open c2s1 (chars "/home/doc.txt") (chars "w")).1 = 3 ∧
    3 ≤ (fs_open c2s1 (chars "/home/doc.txt") (chars "w")).1 ∧
    (fs_write c2s2 3 (chars "72,105")).1 = 2 ∧
    (fs_close c2s3 3).1 = 0 ∧
    fs_cat c2s4 (chars "/home/doc.txt") = chars "Hi" := by
  refine ⟨?_, ?_, ?_, ?_, ?_, ?_, ?_, ?_, ?_⟩ <;> decide

/-- C7: for every open descriptor referencing an existing inode and every
byte sequence `b`, `write_file` appends `b` to the end of the inode's
content — regardless of the descriptor's cursor position and of its
recorded mode, both of which are arbitrary here — returns the length of
`b`, and leaves the descriptor (in particular its cursor) unchanged. -/
theorem c7_write_appends (k : Kernel) (fd : Nat) (d : FileDescriptor) (ino : Inode)
    (b : List Nat) (hfd : k.open_files fd = some d)
    (hino : k.inode_map d.inode_id = some ino) :
    (k.write_file fd b).1 = .ok b.length ∧
    ((k.write_file fd b).2).inode_map d.inode_id =
      some { ino with data := ino.data ++ b } ∧
    ((k.write_file fd b).2).open_files fd = some d := by
  rw [write_file_ok k fd b d ino hfd hino]
  exact ⟨rfl, fupdate_self _ _ _, hfd⟩

theorem c7_write_appends_witness :
    kOpen.open_files 3 = some { inode_id := 1, offset := 0, mode := chars "r" } ∧
    kOpen.inode_map 1 = some { id := 1, inode_type := .File, name := chars "f",
                               data := [], children := [], parent := some 0 } ∧
    ((kOpen.write_file 3 [7, 8]).1 = .ok 2 ∧
     ((kOpen.write_file 3 [7, 8]).2).inode_map 1 =
       some { id := 1, inode_type := .File, name := chars "f",
              data := [] ++ [7, 8], children := [], parent := some 0 } ∧
     ((kOpen.write_file 3 [7, 8]).2).open_files 3 =
       some { inode_id := 1, offset := 0, mode := chars "r" }) :=
  ⟨by decide, by decide,
    c7_write_appends kOpen 3 { inode_id := 1, offset := 0, mode := chars "r" }
      { id := 1, inode_type := .File, name := chars "f", data := [], children := [],
        parent := some 0 } [7, 8] (by decide) (by decide)⟩

/-- C8: in every kernel state reachable from the initial state by boundary
operations, the inode store contains the id-0 root inode, it is a
Directory, and it has no parent — so no operation ever removes it, changes
its kind, or gives it a parent. -/
theorem c8_root_directory {k : Kernel} (h : Reachable k) :
    ∃ ino, k.inode_map 0 = some ino ∧ ino.inode_type = InodeType.Directory ∧
      ino.parent = none :=
  (reachable_inv h).root

theorem c8_root_directory_witness :
    Reachable Kernel.new ∧
    ∃ ino, Kernel.new.inode_map 0 = some ino ∧
      ino.inode_type = InodeType.Directory ∧ ino.parent = none :=
  ⟨Reachable.init, c8_root_directory Reachable.init⟩

theorem kWrite_reachable : Reachable kWrite :=
  @Reachable.step kOpen kWrite (Op.opFsWrite 3 (chars "7")) kOpen_reachable rfl

theorem kEOF_reachable : Reachable kEOF :=
  @Reachable.step kWrite kEOF (Op.opFsRead 3 1) kWrite_reachable rfl

/-- C9 counterexample: in the reachable state `kEOF` descriptor 3 has
cursor 1, so with `max_bytes = 4294967295` (a valid `usize`) the source's
`start + buf_size` addition overflows 32-bit `usize` and the program
panics — a checked-add abort in debug, a wrapped `end < start` slice panic
in release — so the slice indexing of `read` CAN fail even though the
cursor-within-content invariant holds. -/
theorem c9_counterexample :
    Reachable kEOF ∧
    kEOF.open_files 3 = some { inode_id := 1, offset := 1, mode := chars "r" } ∧
    kEOF.read_file 3 4294967295 = none :=
  ⟨kEOF_reachable, by decide, by rfl⟩

/-- C9 amended: in every reachable kernel state, every entry of the
open-descriptor table references a stored inode and has a cursor that is at
most the length of that inode's content (open sets cursor 0, read advances
it to at most the content length, write only grows content); consequently
the half-open slice taken by read is within bounds — and the read cannot
fail — whenever the cursor plus `max_bytes` stays below `2 ^ 32`, the point
at which the `usize` addition `start + buf_size` itself overflows and
panics. -/
theorem c9_cursor_bound {k : Kernel} (h : Reachable k) :
    ∀ fd d, k.open_files fd = some d →
      (∃ ino, k.inode_map d.inode_id = some ino ∧ d.offset ≤ ino.data.length) ∧
      ∀ size, d.offset + size < 4294967296 → (k.read_file fd size).isSome := by
  have hi := reachable_inv h
  intro fd d hfd
  obtain ⟨ino, hino, hoff⟩ := hi.fd_ok fd d hfd
  refine ⟨⟨ino, hino, hoff⟩, ?_⟩
  intro size hov
  have hle : d.offset ≤ min (d.offset + size) ino.data.length :=
    le_min (Nat.le_add_right _ _) hoff
  rw [read_file_ok k fd size d ino hfd hino hov hle]
  rfl

theorem c9_cursor_bound_witness :
    Reachable kOpen ∧
    kOpen.open_files 3 = some { inode_id := 1, offset := 0, mode := chars "r" } ∧
    (0 : Nat) + 5 < 4294967296 ∧
    (kOpen.read_file 3 5).isSome :=
  ⟨kOpen_reachable, by decide, by decide,
    (c9_cursor_bound kOpen_reachable 3
      { inode_id := 1, offset := 0, mode := chars "r" } (by decide)).2 5 (by decide)⟩

/-- C3 counterexample: the path `"/home/"` ends in `/`, so its trailing
name component is empty, yet `create` on a fresh kernel returns 0 (success,
creating a root child named `home`), not -1: `fs_create` trims trailing
slashes before extracting the name. -/
theorem c3_counterexample :
    (chars "/home/").getLast? = some '/' ∧
    (fs_create Kernel.new (chars "/home/") true).1 = 0 ∧
    ¬ (fs_create Kernel.new (chars "/home/") true).1 = -1 := by
  refine ⟨?_, ?_, ?_⟩ <;> decide

/-- C3 amended: `create` returns -1 whenever the whole path trims to the
empty string, whenever the parent prefix (the part before the last `/` of
the slash-trimmed path) fails to resolve, and whenever the extracted name
is empty; but since `fs_create` trims trailing slashes first, a path that
merely ends in `/` is not rejected for an empty name. -/
theorem c3_create_fails (k : Kernel) (path : List Char) (is_dir : Bool) :
    (trimSlashes path = [] → (fs_create k path is_dir).1 = -1) ∧
    (∀ pre name, rsplitSlash (trimSlashes path) = some (pre, name) →
      (∀ e, k.get_inode pre = .error e → (fs_create k path is_dir).1 = -1) ∧
      (name = [] → (fs_create k path is_dir).1 = -1)) := by
  constructor
  · intro hp
    simp [fs_create, hp]
  · intro pre name hsplit
    by_cases hp : trimSlashes path = []
    · constructor
      · intro e herr
        simp [fs_create, hp]
      · intro hname
        simp [fs_create, hp]
    · constructor
      · intro e herr
        by_cases hname : name = []
        · simp [fs_create, hp, hsplit, hname]
        · simp [fs_create, hp, hsplit, hname, herr]
      · intro hname
        simp [fs_create, hp, hsplit, hname]

theorem c3_create_fails_witness :
    rsplitSlash (trimSlashes (chars "/a/b")) = some (chars "a", chars "b") ∧
    Kernel.new.get_inode (chars "a") =
      .error (chars "Path component not found: " ++ chars "a") ∧
    (fs_create Kernel.new (chars "/a/b") true).1 = -1 :=
  ⟨by decide,
   by rfl,
   ((c3_create_fails Kernel.new (chars "/a/b") true).2 (chars "a") (chars "b")
      (by decide)).1 (chars "Path component not found: " ++ chars "a") (by rfl)⟩

/-- C4 counterexample: in the reachable state `kEOF` descriptor 3 has
cursor 1 over the one-byte content of inode 1; for `max_bytes = 4294967295`
(a valid `usize`) the claim demands a successful empty read, but the
`usize` addition `start + buf_size` overflows and the program panics
(modelled as the `none` result), so the claim's universal quantifier over
`max_bytes` fails. -/
theorem c4_counterexample :
    Reachable kEOF ∧
    kEOF.open_files 3 = some { inode_id := 1, offset := 1, mode := chars "r" } ∧
    kEOF.inode_map 1 = some { id := 1, inode_type := .File, name := chars "f",
                              data := [7], children := [], parent := some 0 } ∧
    kEOF.read_file 3 4294967295 = none :=
  ⟨kEOF_reachable, by decide, by decide, by rfl⟩

/-- C4 amended: in a reachable kernel state, a read on any open descriptor
with cursor `c` over content of length `n` succeeds for every `max_bytes`
`m` with `c + m < 2 ^ 32` (so that the `usize` addition `start + buf_size`
does not overflow and panic), returns exactly the slice of the content from
`c` to `min (c + m) n`, sets the cursor to that bound, and in particular
returns the empty (successful) result when the cursor is at or past
end-of-content. -/
theorem c4_read_slice (k : Kernel) (fd : Nat) (d : FileDescriptor) (m : Nat)
    (h : Reachable k) (hfd : k.open_files fd = some d)
    (hm : d.offset + m < 4294967296) :
    ∃ ino, k.inode_map d.inode_id = some ino ∧
      k.read_file fd m =
        some (.ok ((ino.data.drop d.offset).take
            (min (d.offset + m) ino.data.length - d.offset)),
          { k with open_files :=
              fupdate k.open_files fd (some { d with offset := min (d.offset + m) ino.data.length }) }) ∧
      (ino.data.length ≤ d.offset →
        (ino.data.drop d.offset).take (min (d.offset + m) ino.data.length - d.offset)
          = []) := by
  obtain ⟨ino, hino, hoff⟩ := (reachable_inv h).fd_ok fd d hfd
  have hle : d.offset ≤ min (d.offset + m) ino.data.length :=
    le_min (Nat.le_add_right _ _) hoff
  refine ⟨ino, hino, read_file_ok k fd m d ino hfd hino hm hle, ?_⟩
  intro hge
  have hmin : min (d.offset + m) ino.data.length = d.offset :=
    le_antisymm (le_trans (min_le_right _ _) hge) hle
  rw [hmin, Nat.sub_self]
  exact List.take_zero _

theorem c4_read_slice_witness :
    Reachable kOpen ∧
    kOpen.open_files 3 = some { inode_id := 1, offset := 0, mode := chars "r" } ∧
    (0 : Nat) + 5 < 4294967296 ∧
    ∃ ino, kOpen.inode_map 1 = some ino ∧
      kOpen.read_file 3 5 =
        some (.ok ((ino.data.drop 0).take (min (0 + 5) ino.data.length - 0)),
          { kOpen with open_files := fupdate kOpen.open_files 3 (some { inode_id := 1, offset := min (0 + 5) ino.data.length, mode := chars "r" }) }) ∧
      (ino.data.length ≤ 0 →
        (ino.data.drop 0).take (min (0 + 5) ino.data.length - 0) = []) :=
  ⟨kOpen_reachable, by decide, by decide,
    c4_read_slice kOpen 3 { inode_id := 1, offset := 0, mode := chars "r" } 5
      kOpen_reachable (by decide) (by decide)⟩

theorem resolveLoop_eq_spec (k : Kernel)
    (hclosed : ∀ id ino n c, k.inode_map id = some ino →
      alookup ino.children n = some c → (k.inode_map c).isSome) :
    ∀ comps cur, (k.inode_map cur).isSome →
      resolveLoop k cur comps = resolveSpecWalk k cur comps := by
  intro comps
  induction comps with
  | nil =>
      intro cur hcur
      rfl
  | cons c rest ih =>
      intro cur hcur
      by_cases hc : c = []
      · simp only [resolveLoop, resolveSpecWalk, hc, if_pos]
        exact ih cur hcur
      · obtain ⟨ino, hino⟩ := Option.isSome_iff_exists.mp hcur
        cases hl : alookup ino.children c with
        | some nxt =>
            have hnxt := hclosed cur ino c nxt hino hl
            simp only [resolveLoop, resolveSpecWalk, hino, hl, Option.some_bind]
            rw [if_neg hc, if_neg hc]
            exact ih nxt hnxt
        | none =>
            simp only [resolveLoop, resolveSpecWalk, hino, hl, Option.some_bind]
            rw [if_neg hc, if_neg hc]

/-- C5: in every reachable kernel state, path resolution is exactly the
algorithm the specification describes: trim leading and trailing slashes,
resolve the trimmed-empty path to the root id, otherwise split on `/` and
walk from the root skipping empty components, looking each component up by
exact match in the current inode's child mapping, failing with a
path-component-not-found error naming the first absent component. -/
theorem c5_resolution {k : Kernel} (h : Reachable k) (path : List Char) :
    k.get_inode path = resolveSpec k path := by
  have hi := reachable_inv h
  unfold Kernel.get_inode resolveSpec
  dsimp only
  by_cases hp : trimSlashes path = []
  · rw [if_pos hp, if_pos hp]
  · rw [if_neg hp, if_neg hp]
    have hroot : (k.inode_map k.root_inode_id).isSome := by
      rw [hi.root_id]
      obtain ⟨r, hr, _, _⟩ := hi.root
      rw [hr]
      rfl
    exact resolveLoop_eq_spec k hi.closed (splitChar '/' (trimSlashes path))
      k.root_inode_id hroot

theorem c5_resolution_witness :
    Reachable kFile ∧
    kFile.get_inode (chars "/f") = resolveSpec kFile (chars "/f") ∧
    kFile.get_inode (chars "/f") = .ok 1 :=
  ⟨kFile_reachable, c5_resolution kFile_reachable (chars "/f"), by rfl⟩

theorem resolveLoop_ok_isSome (k : Kernel)
    (hclosed : ∀ id ino n c, k.inode_map id = some ino →
      alookup ino.children n = some c → (k.inode_map c).isSome) :
    ∀ comps cur, (k.inode_map cur).isSome →
      (∀ i, resolveLoop k cur comps = .ok i → (k.inode_map i).isSome) ∧
      ¬ resolveLoop k cur comps = .error (chars "Inode not found during traversal") := by
  intro comps
  induction comps with
  | nil =>
      intro cur hcur
      constructor
      · intro i hok
        obtain rfl : cur = i := Except.ok.inj hok
        exact hcur
      · intro hbad
        cases hbad
  | cons c rest ih =>
      intro cur hcur
      by_cases hc : c = []
      · simp only [resolveLoop, hc, if_pos]
        exact ih cur hcur
      · obtain ⟨ino, hino⟩ := Option.isSome_iff_exists.mp hcur
        cases hl : alookup ino.children c with
        | some nxt =>
            have hnxt := hclosed cur ino c nxt hino hl
            simp only [resolveLoop, hc, if_neg, hino, hl]
            exact ih nxt hnxt
        | none =>
            simp only [resolveLoop, hc, if_neg, hino, hl]
            constructor
            · intro i hok
              cases hok
            · intro hbad
              have heq : chars "Path component not found: " ++ c =
                  chars "Inode not found during traversal" := Except.error.inj hbad
              have hP : chars "Path component not found: " =
                  'P' :: chars "ath component not found: " := rfl
              have hI : chars "Inode not found during traversal" =
                  'I' :: chars "node not found during traversal" := rfl
              rw [hP, hI, List.cons_append] at heq
              have : 'P' = 'I' := (List.cons.inj heq).1
              cases this

/-- C10: in every reachable kernel state, every inode id in any directory's
child mapping is a key of the inode store, the root id resolves to a stored
inode, successful path resolution always yields a stored id, the defensive
mid-walk missing-inode branch of the resolver is unreachable, and
`fs_exists` can return -1 only because resolution itself failed — never
through its post-resolution lookup branch. -/
theorem c10_store_closed {k : Kernel} (h : Reachable k) :
    (∀ id ino n c, k.inode_map id = some ino →
      alookup ino.children n = some c → (k.inode_map c).isSome) ∧
    (k.inode_map k.root_inode_id).isSome ∧
    (∀ p i, k.get_inode p = .ok i → (k.inode_map i).isSome) ∧
    (∀ p, ¬ k.get_inode p = .error (chars "Inode not found during traversal")) ∧
    (∀ p, fs_exists k p = -1 → ∃ e, k.get_inode p = .error e) := by
  have hi := reachable_inv h
  have hroot : (k.inode_map k.root_inode_id).isSome := by
    rw [hi.root_id]
    obtain ⟨r, hr, _, _⟩ := hi.root
    rw [hr]
    rfl
  have hok : ∀ p i, k.get_inode p = .ok i → (k.inode_map i).isSome := by
    intro p i hres
    unfold Kernel.get_inode at hres
    dsimp only at hres
    by_cases hp : trimSlashes p = []
    · rw [if_pos hp] at hres
      obtain rfl : k.root_inode_id = i := Except.ok.inj hres
      exact hroot
    · rw [if_neg hp] at hres
      exact (resolveLoop_ok_isSome k hi.closed (splitChar '/' (trimSlashes p))
        k.root_inode_id hroot).1 i hres
  refine ⟨hi.closed, hroot, hok, ?_, ?_⟩
  · intro p hbad
    unfold Kernel.get_inode at hbad
    dsimp only at hbad
    by_cases hp : trimSlashes p = []
    · rw [if_pos hp] at hbad
      cases hbad
    · rw [if_neg hp] at hbad
      exact (resolveLoop_ok_isSome k hi.closed (splitChar '/' (trimSlashes p))
        k.root_inode_id hroot).2 hbad
  · intro p hneg
    unfold fs_exists at hneg
    cases hres : k.get_inode p with
    | error e => exact ⟨e, rfl⟩
    | ok i =>
        exfalso
        rw [hres] at hneg
        dsimp only at hneg
        obtain ⟨ino, hino⟩ := Option.isSome_iff_exists.mp (hok p i hres)
        rw [hino] at hneg
        dsimp only at hneg
        by_cases hd : ino.inode_type = InodeType.Directory
        · rw [if_pos hd] at hneg
          exact absurd hneg (by decide)
        · rw [if_neg hd] at hneg
          exact absurd hneg (by decide)

theorem c10_store_closed_witness :
    Reachable kFile ∧ (kFile.inode_map kFile.root_inode_id).isSome ∧
    ¬ kFile.get_inode (chars "/nope") =
      .error (chars "Inode not found during traversal") :=
  ⟨kFile_reachable, (c10_store_closed kFile_reachable).2.1,
    (c10_store_closed kFile_reachable).2.2.2.1 (chars "/nope")⟩

theorem create_inode_ok_eq (k : Kernel) (p : Nat) (nm : List Char) (ty : InodeType)
    (parent : Inode) (hpne : ¬ p = k.next_inode_id)
    (hp : k.inode_map p = some parent)
    (hdir : parent.inode_type = InodeType.Directory) :
    k.create_inode p nm ty =
      (.ok k.next_inode_id,
       { k with
           next_inode_id := k.next_inode_id + 1
           inode_map := fupdate (fupdate k.inode_map k.next_inode_id (some { id := k.next_inode_id, inode_type := ty, name := nm, data := [], children := [], parent := some p })) p (some { parent with children := ainsert parent.children nm k.next_inode_id }) }) := by
  simp [Kernel.create_inode, fupdate, hpne, hp, hdir]

/-- C6: in a reachable state, creating a child under directory `d` with a
name `n` that is already mapped to inode `kold` succeeds, rebinds `n` to
the freshly allocated id (which differs from `kold`), keeps `kold` present
in the inode store, and leaves no directory's child mapping referencing
`kold` any more. -/
theorem c6_overwrite_orphans {k : Kernel} (h : Reachable k) (d : Nat)
    (dino : Inode) (n : List Char) (kold : Nat) (ty : InodeType)
    (hd : k.inode_map d = some dino)
    (hdir : dino.inode_type = InodeType.Directory)
    (hn : alookup dino.children n = some kold) :
    (k.create_inode d n ty).1 = .ok k.next_inode_id ∧
    (∃ dino', ((k.create_inode d n ty).2).inode_map d = some dino' ∧
      alookup dino'.children n = some k.next_inode_id) ∧
    ¬ k.next_inode_id = kold ∧
    (((k.create_inode d n ty).2).inode_map kold).isSome ∧
    (∀ i ino n', ((k.create_inode d n ty).2).inode_map i = some ino →
      ¬ alookup ino.children n' = some kold) := by
  have hi := reachable_inv h
  have hdlt : d < k.next_inode_id := hi.dom_lt d dino hd
  have hklt : kold < k.next_inode_id := refs_lt hi hd hn
  have hdne : ¬ d = k.next_inode_id := by omega
  have hkne : ¬ kold = k.next_inode_id := by omega
  rw [create_inode_ok_eq k d n ty dino hdne hd hdir]
  refine ⟨rfl, ?_, by omega, ?_, ?_⟩
  · refine ⟨{ dino with children := ainsert dino.children n k.next_inode_id },
      fupdate_self _ _ _, ?_⟩
    show alookup (ainsert dino.children n k.next_inode_id) n = _
    rw [alookup_ainsert, if_pos rfl]
  · show (fupdate (fupdate _ _ _) d _ kold).isSome
    by_cases hkd : kold = d
    · rw [hkd, fupdate_self]
      rfl
    · rw [fupdate_other _ _ _ _ hkd, fupdate_other _ _ _ _ hkne]
      exact hi.closed d dino n kold hd hn
  · intro i ino n' hid hl
    replace hid : fupdate (fupdate k.inode_map k.next_inode_id
        (some { id := k.next_inode_id, inode_type := ty, name := n, data := [],
                children := [], parent := some d })) d
        (some { dino with children := ainsert dino.children n k.next_inode_id }) i
        = some ino := hid
    by_cases hidd : i = d
    · rw [hidd, fupdate_self] at hid
      obtain rfl : _ = ino := Option.some.inj hid
      rw [show ({ dino with children := ainsert dino.children n k.next_inode_id } :
            Inode).children = ainsert dino.children n k.next_inode_id from rfl,
        alookup_ainsert] at hl
      by_cases hn' : n' = n
      · rw [if_pos hn'] at hl
        exact hkne (Option.some.inj hl).symm
      · rw [if_neg hn'] at hl
        exact hn' (hi.uniq d dino n' d dino n kold hd hd hl hn).2
    · rw [fupdate_other _ _ _ _ hidd] at hid
      by_cases hidn : i = k.next_inode_id
      · rw [hidn, fupdate_self] at hid
        obtain rfl : _ = ino := Option.some.inj hid
        simp [alookup] at hl
      · rw [fupdate_other _ _ _ _ hidn] at hid
        exact hidd (hi.uniq i ino n' d dino n kold hid hd hl hn).1

theorem c6_overwrite_orphans_witness :
    Reachable kFile ∧
    kFile.inode_map 0 = some { id := 0, inode_type := .Directory, name := chars "/",
                               data := [], children := [(chars "f", 1)], parent := none } ∧
    alookup [(chars "f", 1)] (chars "f") = some 1 ∧
    ((kFile.create_inode 0 (chars "f") InodeType.File).1 = .ok kFile.next_inode_id ∧
     (∃ dino', ((kFile.create_inode 0 (chars "f") InodeType.File).2).inode_map 0 =
        some dino' ∧ alookup dino'.children (chars "f") = some kFile.next_inode_id) ∧
     ¬ kFile.next_inode_id = 1 ∧
     (((kFile.create_inode 0 (chars "f") InodeType.File).2).inode_map 1).isSome ∧
     (∀ i ino n', ((kFile.create_inode 0 (chars "f") InodeType.File).2).inode_map i
        = some ino → ¬ alookup ino.children n' = some 1)) :=
  ⟨kFile_reachable, by decide, by decide,
    c6_overwrite_orphans kFile_reachable 0
      { id := 0, inode_type := .Directory, name := chars "/", data := [],
        children := [(chars "f", 1)], parent := none }
      (chars "f") 1 InodeType.File (by decide) (by decide) (by decide)⟩

theorem open_file_no_inode (k : Kernel) (iid : Nat) (m : List Char)
    (hino : k.inode_map iid = none) :
    k.open_file iid m = (.error (chars "Inode not found"), k) := by
  simp [Kernel.open_file, hino]

theorem natDigitsAux_eq_nil : ∀ (fuel n : Nat) (acc : List Char),
    natDigitsAux fuel n acc = [] → acc = [] ∧ fuel = 0 := by
  intro fuel
  induction fuel with
  | zero =>
      intro n acc h
      exact ⟨h, rfl⟩
  | succ f ih =>
      intro n acc h
      unfold natDigitsAux at h
      dsimp only at h
      by_cases hn : n < 10
      · rw [if_pos hn] at h
        cases h
      · rw [if_neg hn] at h
        obtain ⟨h1, _⟩ := ih (n / 10) _ h
        cases h1

theorem natDigits_ne_nil (n : Nat) : ¬ natDigits n = [] := by
  intro h
  obtain ⟨_, h2⟩ := natDigitsAux_eq_nil (n + 1) n [] h
  exact Nat.succ_ne_zero n h2

theorem joinComma_cons_ne_nil (p : List Char) (rest : List (List Char))
    (hp : ¬ p = []) : ¬ joinComma (p :: rest) = [] := by
  intro h
  cases rest with
  | nil => exact hp h
  | cons q more =>
      rw [show joinComma (p :: q :: more) = p ++ ',' :: joinComma (q :: more)
        from rfl] at h
      exact hp (List.append_eq_nil.mp h).1

theorem join_digits_nil (l : List Nat)
    (h : joinComma (l.map natDigits) = []) : l = [] := by
  cases l with
  | nil => rfl
  | cons b bs => exact absurd h (joinComma_cons_ne_nil _ _ (natDigits_ne_nil b))

theorem fs_read_empty_state (k : Kernel) (fd size : Nat) (s : List Char)
    (k2 : Kernel) (hr : fs_read k fd size = some (s, k2)) (hs : s = []) :
    k2 = k := by
  subst hs
  unfold fs_read at hr
  cases hfd : k.open_files fd with
  | none =>
      rw [read_file_no_fd k fd size hfd] at hr
      dsimp only at hr
      obtain ⟨_, h2⟩ := Prod.mk.inj (Option.some.inj hr)
      exact h2.symm
  | some d =>
      cases hino : k.inode_map d.inode_id with
      | none =>
          rw [read_file_no_inode k fd size d hfd hino] at hr
          dsimp only at hr
          obtain ⟨_, h2⟩ := Prod.mk.inj (Option.some.inj hr)
          exact h2.symm
      | some ino =>
          by_cases hov : d.offset + size < 4294967296
          · by_cases hle : d.offset ≤ min (d.offset + size) ino.data.length
            · rw [read_file_ok k fd size d ino hfd hino hov hle] at hr
              dsimp only at hr
              obtain ⟨h1, h2⟩ := Prod.mk.inj (Option.some.inj hr)
              have hsl := join_digits_nil _ h1
              have hlen := congrArg List.length hsl
              simp only [List.length_take, List.length_drop, List.length_nil] at hlen
              have hmle : min (d.offset + size) ino.data.length ≤ ino.data.length :=
                Nat.min_le_right _ _
              have hee : min (d.offset + size) ino.data.length = d.offset := by
                rcases Nat.min_eq_zero_iff.mp hlen with hz | hz
                · omega
                · omega
              rw [← h2]
              rw [show ({ d with offset := min (d.offset + size) ino.data.length } :
                  FileDescriptor) = d from by rw [hee]]
              have hmap : fupdate k.open_files fd (some d) = k.open_files := by
                funext x
                by_cases hx : x = fd
                · rw [hx, fupdate_self, hfd]
                · rw [fupdate_other _ _ _ _ hx]
              rw [hmap]
            · rw [read_file_panic k fd size d ino hfd hino hov hle] at hr
              cases hr
          · rw [read_file_overflow k fd size d ino hfd hino hov] at hr
            cases hr

theorem fs_open_fail_state (k : Kernel) (p m : List Char)
    (hf : (fs_open k p m).1 = -1) : (fs_open k p m).2 = k := by
  unfold fs_open at hf ⊢
  cases hg : k.get_inode p with
  | error e => rfl
  | ok iid =>
      rw [hg] at hf
      dsimp only at hf ⊢
      cases hino : k.inode_map iid with
      | none => rw [open_file_no_inode k iid m hino]
      | some ino =>
          rw [open_file_ok k iid m ino hino] at hf
          dsimp only at hf
          exact absurd hf (by omega)

theorem fs_write_fail_state (k : Kernel) (fd : Nat) (data : List Char)
    (hf : (fs_write k fd data).1 = -1) : (fs_write k fd data).2 = k := by
  unfold fs_write at hf ⊢
  dsimp only at hf ⊢
  split
  · rename_i bytes heq
    rw [heq] at hf
    dsimp only at hf
    cases hfd : k.open_files fd with
    | none => rw [write_file_no_fd k fd bytes hfd]
    | some d =>
        cases hino : k.inode_map d.inode_id with
        | none => rw [write_file_no_inode k fd bytes d hfd hino]
        | some ino =>
            rw [write_file_ok k fd bytes d ino hfd hino] at hf
            dsimp only at hf
            exact absurd hf (by omega)
  · rfl

theorem fs_close_fail_state (k : Kernel) (fd : Nat)
    (hf : (fs_close k fd).1 = -1) : (fs_close k fd).2 = k := by
  unfold fs_close Kernel.close_file at hf ⊢
  dsimp only at hf ⊢
  cases hfd : k.open_files fd with
  | some d =>
      rw [hfd] at hf
      dsimp only at hf
      exact absurd hf (by decide)
  | none =>
      show ({ k with open_files := fupdate k.open_files fd none } : Kernel) = k
      have hmap : fupdate k.open_files fd none = k.open_files := by
        funext x
        by_cases hx : x = fd
        · rw [hx, fupdate_self, hfd]
        · rw [fupdate_other _ _ _ _ hx]
      rw [hmap]

theorem create_inode_error_state {k k2 : Kernel} {p : Nat} {nm : List Char}
    {ty : InodeType} {e : List Char}
    (hci : k.create_inode p nm ty = (.error e, k2)) :
    k2 = { k with
             next_inode_id := k.next_inode_id + 1
             inode_map := fupdate k.inode_map k.next_inode_id (some { id := k.next_inode_id, inode_type := ty, name := nm, data := [], children := [], parent := some p }) } := by
  unfold Kernel.create_inode at hci
  dsimp only at hci
  split at hci
  · split at hci
    · obtain ⟨h1, h2⟩ := Prod.mk.inj hci
      cases h1
    · obtain ⟨h1, h2⟩ := Prod.mk.inj hci
      exact h2.symm
  · obtain ⟨h1, h2⟩ := Prod.mk.inj hci
    exact h2.symm

theorem fs_create_fail_state {k : Kernel} (hi : Inv k) (p : List Char) (b : Bool)
    (hf : (fs_create k p b).1 = -1) :
    ((fs_create k p b).2).open_files = k.open_files ∧
    ((fs_create k p b).2).root_inode_id = k.root_inode_id ∧
    ((fs_create k p b).2).next_fd = k.next_fd ∧
    (∀ i ino, k.inode_map i = some ino →
      ((fs_create k p b).2).inode_map i = some ino) := by
  have hmid : ∀ (pid : Nat) (nm : List Char) (ty : InodeType) i ino,
      k.inode_map i = some ino →
      fupdate k.inode_map k.next_inode_id (some { id := k.next_inode_id, inode_type := ty, name := nm, data := [], children := [], parent := some pid }) i = some ino := by
    intro pid nm ty i ino hid
    have hne : ¬ i = k.next_inode_id := by
      have := hi.dom_lt i ino hid
      omega
    rw [fupdate_other _ _ _ _ hne]
    exact hid
  unfold fs_create at hf ⊢
  dsimp only at hf ⊢
  split
  · exact ⟨rfl, rfl, rfl, fun i ino h => h⟩
  · rename_i hemp
    rw [if_neg hemp] at hf
    split
    · rename_i pre name heq
      rw [heq] at hf
      dsimp only at hf
      split
      · exact ⟨rfl, rfl, rfl, fun i ino h => h⟩
      · rename_i hname
        rw [if_neg hname] at hf
        split
        · rename_i pid heq2
          rw [heq2] at hf
          dsimp only at hf
          split
          · rename_i j k2 heqc
            rw [heqc] at hf
            dsimp only at hf
            exact absurd hf (by decide)
          · rename_i e k2 heqc
            rw [create_inode_error_state heqc]
            exact ⟨rfl, rfl, rfl, fun i ino h => hmid pid name _ i ino h⟩
        · exact ⟨rfl, rfl, rfl, fun i ino h => h⟩
    · rename_i heq0
      rw [heq0] at hf
      dsimp only at hf
      split
      · rename_i j k2 heqc
        rw [heqc] at hf
        dsimp only at hf
        exact absurd hf (by decide)
      · rename_i e k2 heqc
        rw [create_inode_error_state heqc]
        exact ⟨rfl, rfl, rfl, fun i ino h => hmid 0 (trimSlashes p) _ i ino h⟩

/-- C1 amended: in a reachable kernel state, every boundary operation other
than create leaves the kernel state unchanged whenever it returns its
designated failure result; a failed create leaves the descriptor table, the
root id, the handle counter and every previously existing inode (hence
every directory's child mapping) unchanged, but — when the failure comes
from the parent check of `create_inode` — it has already inserted an orphan
inode and advanced the id counter, so the full state is not preserved. -/
theorem c1_failure_state {k : Kernel} (h : Reachable k) (op : Op) (out : Out)
    (k' : Kernel) (hs : stepOut k op = some (out, k')) (hf : failureResult op out) :
    ((∀ p b, ¬ op = Op.opFsCreate p b) → k' = k) ∧
    (∀ p b, op = Op.opFsCreate p b →
      k'.open_files = k.open_files ∧ k'.root_inode_id = k.root_inode_id ∧
      k'.next_fd = k.next_fd ∧
      ∀ i ino, k.inode_map i = some ino → k'.inode_map i = some ino) := by
  cases op with
  | opBoot t =>
      obtain ⟨ho, hk⟩ := Prod.mk.inj (Option.some.inj hs)
      subst ho
      exact False.elim hf
  | opUpdateTime t =>
      obtain ⟨ho, hk⟩ := Prod.mk.inj (Option.some.inj hs)
      subst ho
      exact False.elim hf
  | opSpawn ppid =>
      obtain ⟨ho, hk⟩ := Prod.mk.inj (Option.some.inj hs)
      subst ho
      exact False.elim hf
  | opGetUptime =>
      obtain ⟨ho, hk⟩ := Prod.mk.inj (Option.some.inj hs)
      subst ho
      exact False.elim hf
  | opUname =>
      obtain ⟨ho, hk⟩ := Prod.mk.inj (Option.some.inj hs)
      subst ho
      exact False.elim hf
  | opHandleCommand c =>
      obtain ⟨ho, hk⟩ := Prod.mk.inj (Option.some.inj hs)
      subst ho
      exact False.elim hf
  | opFsList p =>
      obtain ⟨ho, hk⟩ := Prod.mk.inj (Option.some.inj hs)
      refine ⟨fun _ => hk.symm, ?_⟩
      intro p' b' hco
      exact Op.noConfusion hco
  | opFsExists p =>
      obtain ⟨ho, hk⟩ := Prod.mk.inj (Option.some.inj hs)
      refine ⟨fun _ => hk.symm, ?_⟩
      intro p' b' hco
      exact Op.noConfusion hco
  | opFsCat p =>
      obtain ⟨ho, hk⟩ := Prod.mk.inj (Option.some.inj hs)
      refine ⟨fun _ => hk.symm, ?_⟩
      intro p' b' hco
      exact Op.noConfusion hco
  | opFsOpen p m =>
      obtain ⟨ho, hk⟩ := Prod.mk.inj (Option.some.inj hs)
      subst ho
      refine ⟨fun _ => hk ▸ fs_open_fail_state k p m hf, ?_⟩
      intro p' b' hco
      exact Op.noConfusion hco
  | opFsWrite fd d =>
      obtain ⟨ho, hk⟩ := Prod.mk.inj (Option.some.inj hs)
      subst ho
      refine ⟨fun _ => hk ▸ fs_write_fail_state k fd d hf, ?_⟩
      intro p' b' hco
      exact Op.noConfusion hco
  | opFsClose fd =>
      obtain ⟨ho, hk⟩ := Prod.mk.inj (Option.some.inj hs)
      subst ho
      refine ⟨fun _ => hk ▸ fs_close_fail_state k fd hf, ?_⟩
      intro p' b' hco
      exact Op.noConfusion hco
  | opFsRead fd size =>
      simp only [stepOut] at hs
      cases hfr : fs_read k fd size with
      | none =>
          rw [hfr] at hs
          cases hs
      | some q =>
          obtain ⟨s, k2⟩ := q
          rw [hfr] at hs
          simp only [Option.map_some'] at hs
          obtain ⟨ho, hk⟩ := Prod.mk.inj (Option.some.inj hs)
          subst ho
          refine ⟨fun _ => hk ▸ fs_read_empty_state k fd size s k2 hfr hf, ?_⟩
          intro p' b' hco
          exact Op.noConfusion hco
  | opFsCreate p b =>
      obtain ⟨ho, hk⟩ := Prod.mk.inj (Option.some.inj hs)
      subst ho
      subst hk
      constructor
      · intro hno
        exact absurd rfl (hno p b)
      · intro p' b' hco
        injection hco with hp' hb'
        subst hp'
        subst hb'
        exact fs_create_fail_state (reachable_inv h) p b hf

theorem c1_failure_state_witness :
    Reachable Kernel.new ∧
    stepOut Kernel.new (Op.opFsExists (chars "/nope")) =
      some (Out.int (-1), Kernel.new) ∧
    failureResult (Op.opFsExists (chars "/nope")) (Out.int (-1)) ∧
    (((∀ p b, ¬ Op.opFsExists (chars "/nope") = Op.opFsCreate p b) →
        Kernel.new = Kernel.new) ∧
     (∀ p b, Op.opFsExists (chars "/nope") = Op.opFsCreate p b →
        Kernel.new.open_files = Kernel.new.open_files ∧
        Kernel.new.root_inode_id = Kernel.new.root_inode_id ∧
        Kernel.new.next_fd = Kernel.new.next_fd ∧
        ∀ i ino, Kernel.new.inode_map i = some ino →
          Kernel.new.inode_map i = some ino)) :=
  ⟨Reachable.init, rfl, rfl,
    c1_failure_state Reachable.init (Op.opFsExists (chars "/nope"))
      (Out.int (-1)) Kernel.new rfl rfl⟩

/-- C1 counterexample: in the reachable state `kFile` (a fresh kernel after
`create("f", false)`), the call `create("f/x", false)` resolves its parent
`f` to a File and fails with -1, yet the kernel state is changed: the inode
id counter advances from 2 to 3 and an orphan inode with id 2 appears in
the store, so this failed boundary operation does not leave the kernel
state unchanged. -/
theorem c1_counterexample :
    Reachable kFile ∧
    (fs_create kFile (chars "f/x") false).1 = -1 ∧
    kFile.next_inode_id = 2 ∧
    ((fs_create kFile (chars "f/x") false).2).next_inode_id = 3 ∧
    kFile.inode_map 2 = none ∧
    (((fs_create kFile (chars "f/x") false).2).inode_map 2).isSome ∧
    ¬ (fs_create kFile (chars "f/x") false).2 = kFile := by
  refine ⟨kFile_reachable, by decide, by decide, by decide, by decide, by decide, ?_⟩
  intro heq
  have h3 : ((fs_create kFile (chars "f/x") false).2).next_inode_id = 3 := by decide
  rw [heq] at h3
  have h2 : kFile.next_inode_id = 2 := by decide
  rw [h2] at h3
  exact absurd h3 (by decide)

end BrowserOS
